import Mathlib

/-!
# GoFuzz — shallow embedding and verification

This file embeds the core of the GoFuzz repository (the full-featured
variant of `main.go`: the `Job`/`Result`/`Config` data model, the
`worker` function with its visited-set check, retry loop, response
filters and recursive expansion, the wordlist seeding loop in `main`,
and the channel shutdown protocol of `main`) as Lean definitions, and
proves or refutes the specification's claims about it.

Modelling conventions:
* Go strings are Lean `String` (one `Char` per byte of the Go string).
* Go non-negative `int` quantities (depths, retry counts, lengths,
  worker counts) are `Nat`; HTTP status codes are `Int` as Go's `int`.
* The network is an oracle `Nat → AttemptOutcome` giving, per attempt
  index, the outcome of `http.NewRequest` + `client.Do`.
* The compiled regular expression `cfg.RegexFilter *regexp.Regexp` is
  an abstract matcher `Option (String → Bool)` (`nil` = `none`).
* Concurrency: `sync.Map.LoadOrStore` is atomic, and the visited map is
  the only shared mutable state, so a run linearises into a sequence of
  per-job worker steps interleaved with the `main` goroutine's seeding
  and `close(jobs)` steps; the small-step relation `SStep` below models
  exactly those linearisations.
-/

namespace GoFuzz

/-- `Job` from `main.go`: one fuzzing request.  `Depth` is non-negative
in every execution (seeds start at 0 and it is only incremented). -/
structure Job where
  URL : String
  PostData : String
  Depth : Nat
deriving Repr, DecidableEq

/-- `Result` from `main.go`: the outcome of dispatching one `Job`.
Go zero values model the omitted fields: a transport-failure `Result`
has `StatusCode = 0`, `Length = 0` and a non-empty `Error`. -/
structure Result where
  URL : String
  StatusCode : Int := 0
  Length : Nat := 0
  Error : String := ""
deriving Repr, DecidableEq

/-- `Config` from `main.go` (read-only after startup).  `Timeout` is in
milliseconds; `RegexFilter` is the abstract matcher of the compiled
regex, `none` when the `-r` flag was absent. -/
structure Config where
  URLTemplate : String := ""
  Wordlist : String := ""
  Method : String := "GET"
  Headers : List (String × String) := []
  Extensions : List String := []
  Workers : Nat := 10
  MinLength : Nat := 0
  MaxLength : Nat := 0
  Recursive : Bool := false
  StatusFilter : List Int := []
  RegexFilter : Option (String → Bool) := none
  PostData : String := ""
  FollowRedirects : Bool := true
  Timeout : Nat := 10000
  SkipTLSVerify : Bool := false
  Proxy : String := ""
  UseTor : Bool := false
  MaxDepth : Nat := 2
  JSONOutput : Bool := false
  Retries : Nat := 1

/-- Left-to-right scan of `strings.ReplaceAll`: at each position, if
`pattern` (non-empty in every use here) is a prefix of the remaining
characters, emit `repl` and resume after the matched occurrence,
otherwise keep one character; occurrences are non-overlapping and
replacement text is not rescanned.  `fuel` (initially the string
length, an upper bound on the scan steps) makes the recursion
structural. -/
def replaceLoop (pattern repl : List Char) : Nat → List Char → List Char
  | _, [] => []
  | 0, s => s
  | fuel + 1, c :: rest =>
    if pattern.isPrefixOf (c :: rest) then
      repl ++ replaceLoop pattern repl fuel ((c :: rest).drop pattern.length)
    else
      c :: replaceLoop pattern repl fuel rest

/-- `replacePlaceholder` from `main.go`: replace every occurrence of
the literal placeholder `FUZZ` in `template` by `word`
(`strings.ReplaceAll(template, "FUZZ", word)`). -/
def replacePlaceholder (template word : String) : String :=
  ⟨replaceLoop "FUZZ".data word.data template.data.length template.data⟩

/-- `containsInt` from `main.go`: linear membership scan. -/
def containsInt (slice : List Int) (val : Int) : Bool :=
  match slice with
  | [] => false
  | v :: rest => if v = val then true else containsInt rest val

/-- The three filter checks inlined in `worker` (`main.go`, the
status-filter, length-bounds and regex `continue`s), packaged as the
acceptance predicate the spec calls `accept(status, bodyBytes, config)`.
Returns `true` when none of the three `continue`s fires. -/
def accept (cfg : Config) (status : Int) (body : String) : Bool :=
  if 0 < cfg.StatusFilter.length && !containsInt cfg.StatusFilter status then
    false
  else if (decide (0 < cfg.MinLength) && decide (body.length < cfg.MinLength))
      || (decide (0 < cfg.MaxLength) && decide (cfg.MaxLength < body.length)) then
    false
  else
    match cfg.RegexFilter with
    | some re => if !re body then false else true
    | none => true

/-- Outcome of one attempt of the retry loop in `worker`:
`http.NewRequest` fails (`reqError`), `client.Do` fails with a
transport error (`transportError`), or an HTTP response arrives
(`response`), carrying its status code and body. -/
inductive AttemptOutcome where
  | reqError (msg : String)
  | transportError (msg : String)
  | response (status : Int) (body : String)
deriving Repr, DecidableEq

/-- Observable outcome of the retry loop in `worker`: the final
`(resp, err)` pair, plus counters for the `client.Do` calls made, the
500 ms `time.Sleep` calls executed, and loop iterations run. -/
structure ExecOutcome where
  result : Except String (Int × String)
  doCalls : Nat
  sleeps : Nat
  iterations : Nat
deriving Repr

/-- The retry loop body of `worker` (`for attempt := 0; attempt <=
cfg.Retries; attempt++`): `remaining` iterations are left, the next
iteration has index `attempt`, and `lastErr` is the current value of
`err`.  A `reqError` sets `err` and continues without calling
`client.Do`; a `transportError` sets `err`, sleeps 500 ms and
continues; a `response` breaks out of the loop immediately. -/
def retryLoop (oracle : Nat → AttemptOutcome) :
    Nat → Nat → Option String → ExecOutcome
  | 0, _, lastErr =>
    { result := .error (lastErr.getD ""), doCalls := 0, sleeps := 0, iterations := 0 }
  | remaining + 1, attempt, _ =>
    match oracle attempt with
    | .reqError msg =>
      let rest := retryLoop oracle remaining (attempt + 1) (some msg)
      { rest with iterations := rest.iterations + 1 }
    | .transportError msg =>
      let rest := retryLoop oracle remaining (attempt + 1) (some msg)
      { result := rest.result, doCalls := rest.doCalls + 1,
        sleeps := rest.sleeps + 1, iterations := rest.iterations + 1 }
    | .response status body =>
      { result := .ok (status, body), doCalls := 1, sleeps := 0, iterations := 1 }

/-- The whole retry loop of `worker`: attempts `0 .. cfg.Retries`
(`cfg.Retries + 1` iterations at most), starting with `err = nil`. -/
def executeRequest (cfg : Config) (oracle : Nat → AttemptOutcome) : ExecOutcome :=
  retryLoop oracle (cfg.Retries + 1) 0 none

/-- The recursive-fuzzing block of `worker` (`if cfg.Recursive &&
job.Depth < cfg.MaxDepth`): one child per configured extension, with
the placeholder in the URL/body templates replaced by `job.URL + ext`,
followed by the plain recursion child; all children carry
`Depth = job.Depth + 1`.  Empty when the guard fails. -/
def expandJobs (cfg : Config) (job : Job) : List Job :=
  if cfg.Recursive && decide (job.Depth < cfg.MaxDepth) then
    (cfg.Extensions.map fun ext =>
      { URL := replacePlaceholder cfg.URLTemplate (job.URL ++ ext),
        PostData := replacePlaceholder cfg.PostData (job.URL ++ ext),
        Depth := job.Depth + 1 })
    ++ [{ URL := job.URL,
          PostData := replacePlaceholder cfg.PostData job.URL,
          Depth := job.Depth + 1 }]
  else []

/-- The "plain recursion" child built at the end of the recursive
block in `worker`: same URL as the parent, depth incremented. -/
def plainChild (cfg : Config) (job : Job) : Job :=
  { URL := job.URL,
    PostData := replacePlaceholder cfg.PostData job.URL,
    Depth := job.Depth + 1 }

/-- What one pass of the `worker` loop body does with a job:
dropped by the visited-set check (`skipped`), reported as a transport
failure (`errorResult`), dropped by the filters (`filtered`), or
reported and expanded (`accepted`, carrying the jobs the recursive
block sends back into the `jobs` channel). -/
inductive JobOutcome where
  | skipped
  | errorResult (r : Result)
  | filtered
  | accepted (r : Result) (newJobs : List Job)
deriving Repr, DecidableEq

/-- One pass of the `worker` loop body (`main.go`): the
`visited.LoadOrStore` check (only when `cfg.Recursive`), the retry
loop, the error `Result` on exhausted retries, the three filters, the
accepted `Result`, and the recursive expansion.  Returns the updated
visited set together with the outcome.  `visited` is the key set of
the `sync.Map`, `oracle` the network for this job. -/
def processJob (cfg : Config) (oracle : Nat → AttemptOutcome)
    (visited : List String) (job : Job) : List String × JobOutcome :=
  if cfg.Recursive && visited.contains job.URL then
    (visited, .skipped)
  else
    let visited1 := if cfg.Recursive then job.URL :: visited else visited
    match (executeRequest cfg oracle).result with
    | .error msg =>
      (visited1, .errorResult { URL := job.URL, Error := msg })
    | .ok (status, body) =>
      if accept cfg status body then
        (visited1,
         .accepted { URL := job.URL, StatusCode := status, Length := body.length }
           (expandJobs cfg job))
      else
        (visited1, .filtered)

/-- The seeding loop of `main` (`main.go`): for each scanned line, skip
it when empty, otherwise send the base job followed by one job per
extension, all at depth 0, with the placeholder replaced by the word
(respectively the word plus extension). -/
def seedJobs (cfg : Config) (lines : List String) : List Job :=
  match lines with
  | [] => []
  | word :: rest =>
    if word = "" then seedJobs cfg rest
    else
      ({ URL := replacePlaceholder cfg.URLTemplate word,
         PostData := replacePlaceholder cfg.PostData word,
         Depth := 0 }
       :: cfg.Extensions.map fun ext =>
            { URL := replacePlaceholder cfg.URLTemplate (word ++ ext),
              PostData := replacePlaceholder cfg.PostData (word ++ ext),
              Depth := 0 })
      ++ seedJobs cfg rest

/-- Global state of one run: the jobs the `main` goroutine still has to
send (`seedsLeft`), whether `close(jobs)` has executed (`closed`), the
contents of the `jobs` channel (`queue`), the key set of the `visited`
`sync.Map`, the `Result`s sent on the `results` channel so far, and the
jobs that passed the visited check and reached the retry loop
(`dispatched`).  `panicked` records that some worker executed
`jobs <- newJob` on the closed channel, which panics in Go.
The channel's buffer capacity (`cfg.Workers * 2`) is elided: it bounds
when senders block but does not change which sends can happen. -/
structure SysState where
  seedsLeft : List Job
  closed : Bool
  queue : List Job
  visited : List String
  results : List Result
  dispatched : List Job
  panicked : Bool
deriving Repr, DecidableEq

/-- Initial state of a run whose seeding loop will send `seeds`. -/
def initSys (seeds : List Job) : SysState :=
  { seedsLeft := seeds, closed := false, queue := [], visited := [],
    results := [], dispatched := [], panicked := false }

/-- Effect of a worker taking `job` from the queue (the remaining queue
is `rest`) and running one pass of the loop body.  On `accepted` with a
non-empty expansion, the worker sends the children back into the `jobs`
channel: if `main` has already closed it, the send panics. -/
def workResult (cfg : Config) (oracleOf : Job → Nat → AttemptOutcome)
    (s : SysState) (rest : List Job) (job : Job) : SysState :=
  match processJob cfg (oracleOf job) s.visited job with
  | (v, .skipped) =>
    { s with queue := rest, visited := v }
  | (v, .errorResult r) =>
    { s with queue := rest, visited := v,
             results := s.results ++ [r], dispatched := s.dispatched ++ [job] }
  | (v, .filtered) =>
    { s with queue := rest, visited := v, dispatched := s.dispatched ++ [job] }
  | (v, .accepted r newJobs) =>
    if newJobs.isEmpty then
      { s with queue := rest, visited := v,
               results := s.results ++ [r], dispatched := s.dispatched ++ [job] }
    else if s.closed then
      { s with queue := rest, visited := v,
               results := s.results ++ [r], dispatched := s.dispatched ++ [job],
               panicked := true }
    else
      { s with queue := rest ++ newJobs, visited := v,
               results := s.results ++ [r], dispatched := s.dispatched ++ [job] }

/-- Label telling which goroutine moved and, for a worker step, which
job it took from the channel. -/
inductive StepKind where
  | seed
  | closeJobs
  | work (job : Job)

/-- Small-step relation for one run.  `seed`: `main` sends the next
seed job (the seeding loop runs before `close(jobs)`, so the channel is
open).  `closeJobs`: `main` executes `close(jobs)` right after the
seeding loop.  `work`: a worker receives some job from the channel (any
position: workers race for it) and runs one pass of the loop body. -/
inductive SStep (cfg : Config) (oracleOf : Job → Nat → AttemptOutcome) :
    SysState → StepKind → SysState → Prop
  | seed (s : SysState) (job : Job) (rest : List Job)
      (h : s.seedsLeft = job :: rest) (hc : s.closed = false) :
      SStep cfg oracleOf s .seed
        { s with seedsLeft := rest, queue := s.queue ++ [job] }
  | closeJobs (s : SysState) (h : s.seedsLeft = []) (hc : s.closed = false) :
      SStep cfg oracleOf s .closeJobs { s with closed := true }
  | work (s : SysState) (pre post : List Job) (job : Job)
      (h : s.queue = pre ++ job :: post) :
      SStep cfg oracleOf s (.work job) (workResult cfg oracleOf s (pre ++ post) job)

/-- Reachability: any interleaving of `main` and worker steps. -/
def SReach (cfg : Config) (oracleOf : Job → Nat → AttemptOutcome) :
    SysState → SysState → Prop :=
  Relation.ReflTransGen (fun a b => ∃ k, SStep cfg oracleOf a k b)

/-! ## Supporting lemmas -/

/-- One iteration of the retry loop on a `transportError` attempt. -/
theorem retryLoop_step_transport (oracle : Nat → AttemptOutcome)
    (remaining attempt : Nat) (lastErr : Option String) (msg : String)
    (h : oracle attempt = .transportError msg) :
    retryLoop oracle (remaining + 1) attempt lastErr =
      { result := (retryLoop oracle remaining (attempt + 1) (some msg)).result,
        doCalls := (retryLoop oracle remaining (attempt + 1) (some msg)).doCalls + 1,
        sleeps := (retryLoop oracle remaining (attempt + 1) (some msg)).sleeps + 1,
        iterations := (retryLoop oracle remaining (attempt + 1) (some msg)).iterations + 1 } := by
  rw [retryLoop, h]

/-- One iteration of the retry loop on a `reqError` attempt. -/
theorem retryLoop_step_reqError (oracle : Nat → AttemptOutcome)
    (remaining attempt : Nat) (lastErr : Option String) (msg : String)
    (h : oracle attempt = .reqError msg) :
    retryLoop oracle (remaining + 1) attempt lastErr =
      { result := (retryLoop oracle remaining (attempt + 1) (some msg)).result,
        doCalls := (retryLoop oracle remaining (attempt + 1) (some msg)).doCalls,
        sleeps := (retryLoop oracle remaining (attempt + 1) (some msg)).sleeps,
        iterations := (retryLoop oracle remaining (attempt + 1) (some msg)).iterations + 1 } := by
  rw [retryLoop, h]

/-- One iteration of the retry loop on a `response` attempt: the loop
ends at once. -/
theorem retryLoop_step_response (oracle : Nat → AttemptOutcome)
    (remaining attempt : Nat) (lastErr : Option String) (status : Int) (body : String)
    (h : oracle attempt = .response status body) :
    retryLoop oracle (remaining + 1) attempt lastErr =
      { result := .ok (status, body), doCalls := 1, sleeps := 0, iterations := 1 } := by
  rw [retryLoop, h]

/-- If every attempt in a window of `r + 1` consecutive iterations is a
transport failure, the retry loop runs the whole window, calls
`client.Do` and sleeps once per iteration, and ends with the last
failure's error. -/
theorem retryLoop_all_fail (oracle : Nat → AttemptOutcome) (msgs : Nat → String) :
    ∀ (r attempt : Nat) (lastErr : Option String),
    (∀ i, i ≤ r → oracle (attempt + i) = .transportError (msgs (attempt + i))) →
    retryLoop oracle (r + 1) attempt lastErr =
      { result := .error (msgs (attempt + r)), doCalls := r + 1,
        sleeps := r + 1, iterations := r + 1 } := by
  intro r
  induction r with
  | zero =>
    intro attempt lastErr h
    have h0 := h 0 (Nat.le_refl 0)
    simp only [Nat.add_zero] at h0
    rw [retryLoop_step_transport oracle 0 attempt lastErr (msgs attempt) h0]
    simp [retryLoop]
  | succ r ih =>
    intro attempt lastErr h
    have h0 := h 0 (Nat.zero_le _)
    simp only [Nat.add_zero] at h0
    have hrest := ih (attempt + 1) (some (msgs attempt)) (fun i hi => by
      have := h (i + 1) (Nat.succ_le_succ hi)
      simpa [Nat.add_assoc, Nat.add_comm 1 i] using this)
    rw [retryLoop_step_transport oracle (r + 1) attempt lastErr (msgs attempt) h0, hrest]
    have harith : attempt + 1 + r = attempt + (r + 1) := by omega
    simp [harith]

/-- `executeRequest` under total transport failure: `cfg.Retries + 1`
`client.Do` calls, one sleep after each, and the last failure's
error. -/
theorem executeRequest_all_fail (cfg : Config) (oracle : Nat → AttemptOutcome)
    (msgs : Nat → String)
    (h : ∀ i, i ≤ cfg.Retries → oracle i = .transportError (msgs i)) :
    executeRequest cfg oracle =
      { result := .error (msgs cfg.Retries), doCalls := cfg.Retries + 1,
        sleeps := cfg.Retries + 1, iterations := cfg.Retries + 1 } := by
  have := retryLoop_all_fail oracle msgs cfg.Retries 0 none (fun i hi => by
    simpa using h i hi)
  simpa [executeRequest] using this

/-- If attempt `j` (within the window) yields an HTTP response and no
earlier attempt does, the retry loop returns that response and stops
after iteration `j` — no later attempt runs, whatever the status. -/
theorem retryLoop_response (oracle : Nat → AttemptOutcome) (status : Int) (body : String) :
    ∀ (j remaining attempt : Nat) (lastErr : Option String),
    j < remaining →
    oracle (attempt + j) = .response status body →
    (∀ i, i < j → ∀ st b, oracle (attempt + i) ≠ .response st b) →
    (retryLoop oracle remaining attempt lastErr).result = .ok (status, body) ∧
    (retryLoop oracle remaining attempt lastErr).iterations = j + 1 := by
  intro j
  induction j with
  | zero =>
    intro remaining attempt lastErr hlt hresp _
    match remaining, hlt with
    | remaining + 1, _ =>
      simp only [Nat.add_zero] at hresp
      rw [retryLoop_step_response oracle remaining attempt lastErr status body hresp]
      exact ⟨rfl, rfl⟩
  | succ j ih =>
    intro remaining attempt lastErr hlt hresp hbefore
    match remaining, hlt with
    | remaining + 1, hlt =>
      have hj : j < remaining := Nat.lt_of_succ_lt_succ hlt
      have hresp1 : oracle (attempt + 1 + j) = .response status body := by
        simpa [Nat.add_assoc, Nat.add_comm 1 j] using hresp
      have hbefore1 : ∀ i, i < j → ∀ st b, oracle (attempt + 1 + i) ≠ .response st b :=
        fun i hi st b => by
          have := hbefore (i + 1) (Nat.succ_lt_succ hi) st b
          simpa [Nat.add_assoc, Nat.add_comm 1 i] using this
      have h0 := hbefore 0 (Nat.succ_pos j)
      simp only [Nat.add_zero] at h0
      cases hoa : oracle attempt with
      | reqError msg =>
        have hrest := ih remaining (attempt + 1) (some msg) hj hresp1 hbefore1
        rw [retryLoop_step_reqError oracle remaining attempt lastErr msg hoa]
        exact ⟨hrest.1, by rw [hrest.2]⟩
      | transportError msg =>
        have hrest := ih remaining (attempt + 1) (some msg) hj hresp1 hbefore1
        rw [retryLoop_step_transport oracle remaining attempt lastErr msg hoa]
        exact ⟨hrest.1, by rw [hrest.2]⟩
      | response st b => exact absurd hoa (h0 st b)

/-- `executeRequest` when the first response arrives at attempt
`j ≤ cfg.Retries`: it is returned as-is and the loop stops. -/
theorem executeRequest_response (cfg : Config) (oracle : Nat → AttemptOutcome)
    (j : Nat) (status : Int) (body : String)
    (hj : j ≤ cfg.Retries)
    (hresp : oracle j = .response status body)
    (hbefore : ∀ i, i < j → ∀ st b, oracle i ≠ .response st b) :
    (executeRequest cfg oracle).result = .ok (status, body) ∧
    (executeRequest cfg oracle).iterations = j + 1 := by
  have := retryLoop_response oracle status body j (cfg.Retries + 1) 0 none
    (Nat.lt_succ_of_le hj) (by simpa using hresp)
    (fun i hi st b => by simpa using hbefore i hi st b)
  simpa [executeRequest] using this

/-- A duplicate target is dropped by the `LoadOrStore` check when
recursion is on: no request, no result, visited set unchanged. -/
theorem processJob_skip (cfg : Config) (oracle : Nat → AttemptOutcome)
    (visited : List String) (job : Job)
    (hrec : cfg.Recursive = true) (hvis : visited.contains job.URL = true) :
    processJob cfg oracle visited job = (visited, .skipped) := by
  have hmem : job.URL ∈ visited := by simpa using hvis
  simp [processJob, hrec, hvis, hmem]

/-- A job that passes the visited check and whose retry loop ends in
error `msg` yields exactly the error `Result` (zero status, zero
length), with the target newly marked when recursion is on. -/
theorem processJob_fail (cfg : Config) (oracle : Nat → AttemptOutcome)
    (visited : List String) (job : Job) (msg : String)
    (hgate : cfg.Recursive = false ∨ visited.contains job.URL = false)
    (hres : (executeRequest cfg oracle).result = .error msg) :
    processJob cfg oracle visited job =
      (if cfg.Recursive then job.URL :: visited else visited,
       .errorResult { URL := job.URL, Error := msg }) := by
  cases hgate with
  | inl h => simp [processJob, h, hres]
  | inr h =>
    have hnm : job.URL ∉ visited := by simpa using h
    simp [processJob, h, hnm, hres]

/-- A job that passes the visited check and receives a response is
accepted or filtered according to `accept`; when accepted, the emitted
`Result` echoes the job's URL and the expansion is `expandJobs`. -/
theorem processJob_ok (cfg : Config) (oracle : Nat → AttemptOutcome)
    (visited : List String) (job : Job) (status : Int) (body : String)
    (hgate : cfg.Recursive = false ∨ visited.contains job.URL = false)
    (hres : (executeRequest cfg oracle).result = .ok (status, body)) :
    processJob cfg oracle visited job =
      (if cfg.Recursive then job.URL :: visited else visited,
       if accept cfg status body then
         .accepted { URL := job.URL, StatusCode := status, Length := body.length }
           (expandJobs cfg job)
       else .filtered) := by
  have hor : cfg.Recursive = false ∨ job.URL ∉ visited := by
    cases hgate with
    | inl h => exact Or.inl h
    | inr h => exact Or.inr (by simpa using h)
  by_cases hacc : accept cfg status body = true
  · cases hor with
    | inl h => simp [processJob, h, hres, hacc]
    | inr h => simp [processJob, h, hres, hacc]
  · simp only [Bool.not_eq_true] at hacc
    cases hor with
    | inl h => simp [processJob, h, hres, hacc]
    | inr h => simp [processJob, h, hres, hacc]

/-- The visited set computed by one worker pass is either unchanged or
gains exactly the job's URL. -/
theorem processJob_fst (cfg : Config) (oracle : Nat → AttemptOutcome)
    (visited : List String) (job : Job) :
    (processJob cfg oracle visited job).1 = visited ∨
    (processJob cfg oracle visited job).1 = job.URL :: visited := by
  by_cases hvis : visited.contains job.URL = true
  · cases hR : cfg.Recursive with
    | true =>
      left
      rw [processJob_skip cfg oracle visited job hR hvis]
    | false =>
      cases hres : (executeRequest cfg oracle).result with
      | error msg =>
        left
        rw [processJob_fail cfg oracle visited job msg (Or.inl hR) hres, hR]
        simp
      | ok p =>
        obtain ⟨status, body⟩ := p
        left
        rw [processJob_ok cfg oracle visited job status body (Or.inl hR) hres, hR]
        simp
  · simp only [Bool.not_eq_true] at hvis
    cases hres : (executeRequest cfg oracle).result with
    | error msg =>
      rw [processJob_fail cfg oracle visited job msg (Or.inr hvis) hres]
      cases hR : cfg.Recursive with
      | true => right; simp
      | false => left; simp
    | ok p =>
      obtain ⟨status, body⟩ := p
      rw [processJob_ok cfg oracle visited job status body (Or.inr hvis) hres]
      cases hR : cfg.Recursive with
      | true => right; simp
      | false => left; simp

/-- One worker pass never removes anything from the visited set. -/
theorem processJob_visited_mono (cfg : Config) (oracle : Nat → AttemptOutcome)
    (visited : List String) (job : Job) (u : String) (hu : u ∈ visited) :
    u ∈ (processJob cfg oracle visited job).1 := by
  cases processJob_fst cfg oracle visited job with
  | inl h => rw [h]; exact hu
  | inr h => rw [h]; exact List.mem_cons_of_mem _ hu

/-- When recursion is on, the processed job's URL is in the visited set
afterwards (it was either already present or just stored). -/
theorem processJob_marks (cfg : Config) (oracle : Nat → AttemptOutcome)
    (visited : List String) (job : Job) (hrec : cfg.Recursive = true) :
    job.URL ∈ (processJob cfg oracle visited job).1 := by
  by_cases hvis : visited.contains job.URL = true
  · rw [processJob_skip cfg oracle visited job hrec hvis]
    simpa using hvis
  · simp only [Bool.not_eq_true] at hvis
    have hfst : (processJob cfg oracle visited job).1 = job.URL :: visited := by
      cases hres : (executeRequest cfg oracle).result with
      | error msg =>
        simp [processJob_fail cfg oracle visited job msg (Or.inr hvis) hres, hrec]
      | ok p =>
        obtain ⟨status, body⟩ := p
        simp [processJob_ok cfg oracle visited job status body (Or.inr hvis) hres, hrec]
    rw [hfst]
    exact List.mem_cons_self _ _

/-- When the recursion guard holds, the expansion is the extension
children (placeholder substituted with `job.URL ++ ext`) followed by
the plain recursion child. -/
theorem expandJobs_pos (cfg : Config) (job : Job)
    (hrec : cfg.Recursive = true) (hd : job.Depth < cfg.MaxDepth) :
    expandJobs cfg job =
      (cfg.Extensions.map fun ext =>
        { URL := replacePlaceholder cfg.URLTemplate (job.URL ++ ext),
          PostData := replacePlaceholder cfg.PostData (job.URL ++ ext),
          Depth := job.Depth + 1 })
      ++ [plainChild cfg job] := by
  simp [expandJobs, plainChild, hrec, hd]

/-- Every job produced by the recursive block sits one level below its
parent, and the parent was strictly below the depth bound. -/
theorem expandJobs_mem (cfg : Config) (job j : Job) (hj : j ∈ expandJobs cfg job) :
    job.Depth < cfg.MaxDepth ∧ j.Depth = job.Depth + 1 := by
  by_cases hcond : (cfg.Recursive && decide (job.Depth < cfg.MaxDepth)) = true
  · have hd : job.Depth < cfg.MaxDepth := by
      have := hcond
      simp only [Bool.and_eq_true, decide_eq_true_eq] at this
      exact this.2
    refine ⟨hd, ?_⟩
    unfold expandJobs at hj
    rw [if_pos hcond] at hj
    rcases List.mem_append.mp hj with hmap | hplain
    · rcases List.mem_map.mp hmap with ⟨ext, _, rfl⟩
      rfl
    · rcases List.mem_singleton.mp hplain with rfl
      rfl
  · exfalso
    unfold expandJobs at hj
    rw [if_neg hcond] at hj
    exact List.not_mem_nil j hj

/-- The visited set after a worker step is the one `processJob`
computed. -/
theorem workResult_visited (cfg : Config) (oracleOf : Job → Nat → AttemptOutcome)
    (s : SysState) (rest : List Job) (job : Job) :
    (workResult cfg oracleOf s rest job).visited =
      (processJob cfg (oracleOf job) s.visited job).1 := by
  unfold workResult
  rcases hpj : processJob cfg (oracleOf job) s.visited job with ⟨v, outcome⟩
  cases outcome with
  | skipped => rfl
  | errorResult r => rfl
  | filtered => rfl
  | accepted r newJobs =>
    by_cases hempty : newJobs.isEmpty = true
    · simp [hempty]
    · simp only [Bool.not_eq_true] at hempty
      by_cases hcl : s.closed = true
      · simp [hempty, hcl]
      · simp only [Bool.not_eq_true] at hcl
        simp [hempty, hcl]

/-- Worker steps, seeding and closing never shrink the visited set. -/
theorem sstep_visited_mono (cfg : Config) (oracleOf : Job → Nat → AttemptOutcome)
    (s : SysState) (k : StepKind) (s2 : SysState) (h : SStep cfg oracleOf s k s2) :
    ∀ u ∈ s.visited, u ∈ s2.visited := by
  cases h with
  | seed job rest h hc => intro u hu; exact hu
  | closeJobs h hc => intro u hu; exact hu
  | work pre post job h =>
    intro u hu
    rw [workResult_visited]
    exact processJob_visited_mono cfg (oracleOf job) s.visited job u hu

/-- Reachability never shrinks the visited set. -/
theorem sreach_visited_mono (cfg : Config) (oracleOf : Job → Nat → AttemptOutcome)
    (s s2 : SysState) (h : SReach cfg oracleOf s s2) :
    ∀ u ∈ s.visited, u ∈ s2.visited := by
  induction h with
  | refl => exact fun u hu => hu
  | tail hab hbc ih =>
    intro u hu
    rcases hbc with ⟨k, hstep⟩
    exact sstep_visited_mono cfg oracleOf _ k _ hstep u (ih u hu)

/-- A failed visited-check guard splits into its two boolean causes. -/
theorem gateOfNotAnd {cfg : Config} {visited : List String} {job : Job}
    (h : ¬(cfg.Recursive && visited.contains job.URL) = true) :
    cfg.Recursive = false ∨ visited.contains job.URL = false := by
  cases hR : cfg.Recursive with
  | false => exact Or.inl rfl
  | true =>
    cases hC : visited.contains job.URL with
    | false => exact Or.inr rfl
    | true => exact absurd (by rw [hR, hC]; rfl) h

/-- An accepted outcome's expansion is exactly `expandJobs`, and its
`Result` echoes the job's URL. -/
theorem processJob_snd_accepted (cfg : Config) (oracle : Nat → AttemptOutcome)
    (visited : List String) (job : Job) (v : List String) (r : Result) (njs : List Job)
    (h : processJob cfg oracle visited job = (v, .accepted r njs)) :
    njs = expandJobs cfg job ∧ r.URL = job.URL := by
  by_cases hcond : (cfg.Recursive && visited.contains job.URL) = true
  · have hrec : cfg.Recursive = true := ((Bool.and_eq_true _ _).mp hcond).1
    have hvis : visited.contains job.URL = true := ((Bool.and_eq_true _ _).mp hcond).2
    rw [processJob_skip cfg oracle visited job hrec hvis] at h
    simp at h
  · have hgate := gateOfNotAnd hcond
    cases hres : (executeRequest cfg oracle).result with
    | error msg =>
      rw [processJob_fail cfg oracle visited job msg hgate hres] at h
      simp at h
    | ok p =>
      obtain ⟨status, body⟩ := p
      rw [processJob_ok cfg oracle visited job status body hgate hres] at h
      by_cases hacc : accept cfg status body = true
      · rw [if_pos hacc] at h
        have h2 := congrArg Prod.snd h
        simp only at h2
        cases h2
        exact ⟨rfl, rfl⟩
      · rw [if_neg hacc] at h
        simp at h

/-- When recursion is on, any outcome other than `skipped` means the
job's URL was not yet visited (the `LoadOrStore` was a fresh store). -/
theorem processJob_not_skip_fresh (cfg : Config) (oracle : Nat → AttemptOutcome)
    (visited : List String) (job : Job) (v : List String) (o : JobOutcome)
    (h : processJob cfg oracle visited job = (v, o)) (ho : o ≠ .skipped)
    (hrec : cfg.Recursive = true) :
    visited.contains job.URL = false := by
  by_cases hvis : visited.contains job.URL = true
  · rw [processJob_skip cfg oracle visited job hrec hvis] at h
    have h2 := congrArg Prod.snd h
    simp only at h2
    exact absurd h2.symm ho
  · simpa using hvis

/-- Every seed job generated from the wordlist has depth 0. -/
theorem seedJobs_depth (cfg : Config) (lines : List String) :
    ∀ j ∈ seedJobs cfg lines, j.Depth = 0 := by
  induction lines with
  | nil => intro j hj; simp [seedJobs] at hj
  | cons word rest ih =>
    intro j hj
    by_cases hw : word = ""
    · rw [seedJobs, if_pos hw] at hj
      exact ih j hj
    · rw [seedJobs, if_neg hw] at hj
      rcases List.mem_append.mp hj with hnew | hold
      · cases hnew with
        | head => rfl
        | tail _ hmap =>
          rcases List.mem_map.mp hmap with ⟨ext, _, rfl⟩
          rfl
      · exact ih j hold

/-- Exactly `1 + E` seed jobs per non-empty wordlist line. -/
theorem seedJobs_length (cfg : Config) (lines : List String) :
    (seedJobs cfg lines).length =
      (lines.countP fun w => decide (w ≠ "")) * (1 + cfg.Extensions.length) := by
  induction lines with
  | nil => simp [seedJobs]
  | cons word rest ih =>
    by_cases hw : word = ""
    · rw [seedJobs, if_pos hw]
      simp [List.countP_cons, hw, ih]
    · rw [seedJobs, if_neg hw]
      simp only [List.length_append, List.length_cons, List.length_map,
        List.countP_cons, ih, hw]
      simp [hw]
      ring

/-- Depth invariant: every job still to be seeded, queued, or already
dispatched respects the depth bound. -/
def DepthOk (cfg : Config) (s : SysState) : Prop :=
  (∀ j ∈ s.seedsLeft, j.Depth ≤ cfg.MaxDepth) ∧
  (∀ j ∈ s.queue, j.Depth ≤ cfg.MaxDepth) ∧
  (∀ j ∈ s.dispatched, j.Depth ≤ cfg.MaxDepth)

/-- One step preserves the depth invariant: seeding moves a bounded job
into the queue, and recursive expansion only fires when the parent is
strictly below the bound, producing children at `parent + 1`. -/
theorem sstep_depthOk (cfg : Config) (oracleOf : Job → Nat → AttemptOutcome)
    (s : SysState) (k : StepKind) (s2 : SysState)
    (h : SStep cfg oracleOf s k s2) (hs : DepthOk cfg s) : DepthOk cfg s2 := by
  obtain ⟨h1, h2, h3⟩ := hs
  cases h with
  | seed job rest hseed hc =>
    refine ⟨?_, ?_, h3⟩
    · intro j hj
      exact h1 j (hseed ▸ List.mem_cons_of_mem _ hj)
    · intro j hj
      rcases List.mem_append.mp hj with hj | hj
      · exact h2 j hj
      · rcases List.mem_singleton.mp hj with rfl
        exact h1 j (hseed ▸ List.mem_cons_self _ _)
  | closeJobs hse hc => exact ⟨h1, h2, h3⟩
  | work pre post job hq =>
    have hjob : job ∈ s.queue := by
      rw [hq]; exact List.mem_append_right pre (List.mem_cons_self _ _)
    have hrest : ∀ j ∈ pre ++ post, j ∈ s.queue := by
      intro j hj
      rw [hq]
      rcases List.mem_append.mp hj with hj | hj
      · exact List.mem_append_left _ hj
      · exact List.mem_append_right _ (List.mem_cons_of_mem _ hj)
    have hq2 : ∀ j ∈ pre ++ post, j.Depth ≤ cfg.MaxDepth :=
      fun j hj => h2 j (hrest j hj)
    have hd3 : ∀ j ∈ s.dispatched ++ [job], j.Depth ≤ cfg.MaxDepth := by
      intro j hj
      rcases List.mem_append.mp hj with hj | hj
      · exact h3 j hj
      · rcases List.mem_singleton.mp hj with rfl
        exact h2 j hjob
    unfold workResult
    rcases hpj : processJob cfg (oracleOf job) s.visited job with ⟨v, outcome⟩
    cases outcome with
    | skipped => exact ⟨h1, hq2, h3⟩
    | errorResult r => exact ⟨h1, hq2, hd3⟩
    | filtered => exact ⟨h1, hq2, hd3⟩
    | accepted r njs =>
      have hexp : njs = expandJobs cfg job :=
        (processJob_snd_accepted cfg (oracleOf job) s.visited job v r njs hpj).1
      have hnew : ∀ j ∈ pre ++ post ++ njs, j.Depth ≤ cfg.MaxDepth := by
        intro j hj
        rcases List.mem_append.mp hj with hj | hj
        · exact hq2 j hj
        · have := expandJobs_mem cfg job j (hexp ▸ hj)
          omega
      by_cases hempty : njs.isEmpty = true
      · simp only [hempty, if_true]
        exact ⟨h1, hq2, hd3⟩
      · simp only [Bool.not_eq_true] at hempty
        simp only [hempty, Bool.false_eq_true, if_false]
        by_cases hcl : s.closed = true
        · simp only [hcl, if_true]
          exact ⟨h1, hq2, hd3⟩
        · simp only [Bool.not_eq_true] at hcl
          simp only [hcl, Bool.false_eq_true, if_false]
          exact ⟨h1, hnew, hd3⟩

/-- The depth invariant holds at every reachable state. -/
theorem sreach_depthOk (cfg : Config) (oracleOf : Job → Nat → AttemptOutcome)
    (s s2 : SysState) (h : SReach cfg oracleOf s s2) (hs : DepthOk cfg s) :
    DepthOk cfg s2 := by
  induction h with
  | refl => exact hs
  | tail hab hbc ih =>
    rcases hbc with ⟨k, hstep⟩
    exact sstep_depthOk cfg oracleOf _ k _ hstep ih

/-- Dispatch invariant: no URL is dispatched twice, and every
dispatched URL is recorded in the visited set. -/
def DispOk (s : SysState) : Prop :=
  (s.dispatched.map Job.URL).Nodup ∧ ∀ j ∈ s.dispatched, j.URL ∈ s.visited

/-- One step preserves the dispatch invariant when recursion is on: a
job reaches the retry loop only when its `LoadOrStore` was a fresh
store, so its URL was not among the already-dispatched (all of which
are in the visited set). -/
theorem sstep_dispOk (cfg : Config) (oracleOf : Job → Nat → AttemptOutcome)
    (s : SysState) (k : StepKind) (s2 : SysState)
    (hrec : cfg.Recursive = true)
    (h : SStep cfg oracleOf s k s2) (hs : DispOk s) : DispOk s2 := by
  obtain ⟨h1, h2⟩ := hs
  cases h with
  | seed job rest hseed hc => exact ⟨h1, h2⟩
  | closeJobs hse hc => exact ⟨h1, h2⟩
  | work pre post job hq =>
    have hvmono : ∀ u ∈ s.visited, u ∈ (processJob cfg (oracleOf job) s.visited job).1 :=
      fun u hu => processJob_visited_mono cfg (oracleOf job) s.visited job u hu
    have hmarks : job.URL ∈ (processJob cfg (oracleOf job) s.visited job).1 :=
      processJob_marks cfg (oracleOf job) s.visited job hrec
    unfold workResult
    rcases hpj : processJob cfg (oracleOf job) s.visited job with ⟨v, outcome⟩
    rw [hpj] at hvmono hmarks
    have hdisp : ∀ (hne : outcome ≠ .skipped),
        ((s.dispatched ++ [job]).map Job.URL).Nodup ∧
        ∀ j ∈ s.dispatched ++ [job], j.URL ∈ v := by
      intro hne
      have hfresh : s.visited.contains job.URL = false :=
        processJob_not_skip_fresh cfg (oracleOf job) s.visited job v outcome hpj hne hrec
      have hnotmem : job.URL ∉ s.visited := by simpa using hfresh
      constructor
      · rw [List.map_append]
        rw [List.nodup_append]
        refine ⟨h1, List.nodup_singleton _, ?_⟩
        intro u hu hu2
        rcases List.mem_map.mp hu with ⟨j, hj, rfl⟩
        rcases List.mem_singleton.mp hu2 with heq
        exact hnotmem (heq ▸ h2 j hj)
      · intro j hj
        rcases List.mem_append.mp hj with hj | hj
        · exact hvmono j.URL (h2 j hj)
        · rcases List.mem_singleton.mp hj with rfl
          exact hmarks
    cases outcome with
    | skipped => exact ⟨h1, fun j hj => hvmono j.URL (h2 j hj)⟩
    | errorResult r => exact hdisp (by simp)
    | filtered => exact hdisp (by simp)
    | accepted r njs =>
      by_cases hempty : njs.isEmpty = true
      · simp only [hempty, if_true]
        exact hdisp (by simp)
      · simp only [Bool.not_eq_true] at hempty
        simp only [hempty, Bool.false_eq_true, if_false]
        by_cases hcl : s.closed = true
        · simp only [hcl, if_true]
          exact hdisp (by simp)
        · simp only [Bool.not_eq_true] at hcl
          simp only [hcl, Bool.false_eq_true, if_false]
          exact hdisp (by simp)

/-- The dispatch invariant holds at every reachable state when
recursion is on. -/
theorem sreach_dispOk (cfg : Config) (oracleOf : Job → Nat → AttemptOutcome)
    (s s2 : SysState) (hrec : cfg.Recursive = true)
    (h : SReach cfg oracleOf s s2) (hs : DispOk s) : DispOk s2 := by
  induction h with
  | refl => exact hs
  | tail hab hbc ih =>
    rcases hbc with ⟨k, hstep⟩
    exact sstep_dispOk cfg oracleOf _ k _ hrec hstep ih

/-- A visited job is dropped whole by the worker: only the queue
shrinks. -/
theorem workResult_skip (cfg : Config) (oracleOf : Job → Nat → AttemptOutcome)
    (s : SysState) (rest : List Job) (job : Job)
    (hrec : cfg.Recursive = true) (hmem : job.URL ∈ s.visited) :
    workResult cfg oracleOf s rest job = { s with queue := rest } := by
  have hvis : s.visited.contains job.URL = true := by simpa using hmem
  unfold workResult
  rw [processJob_skip cfg (oracleOf job) s.visited job hrec hvis]

/-! ## A concrete run used by the witnesses and the shutdown bug

Template `FUZZ`, no extensions, recursion on, a one-word wordlist
`["w"]`, and a network that answers 200/`"ok"` to everything. -/

/-- Concrete configuration: `-u FUZZ -rec -depth 2`. -/
def cfgRun : Config := { URLTemplate := "FUZZ", Recursive := true, MaxDepth := 2 }

/-- Concrete network: every attempt of every job gets `200 ok`. -/
def oracleRun : Job → Nat → AttemptOutcome := fun _ _ => .response 200 "ok"

/-- The single seed job of the concrete run. -/
def jobW : Job := { URL := "w", PostData := "", Depth := 0 }

/-- After `main` seeded `jobW`. -/
def stSeeded : SysState :=
  { seedsLeft := [], closed := false, queue := [jobW], visited := [],
    results := [], dispatched := [], panicked := false }

/-- After `main` additionally executed `close(jobs)`. -/
def stClosed : SysState :=
  { seedsLeft := [], closed := true, queue := [jobW], visited := [],
    results := [], dispatched := [], panicked := false }

/-- After a worker processed `jobW` while the channel was still open:
accepted, result emitted, plain recursion child enqueued. -/
def stWorked : SysState :=
  { seedsLeft := [], closed := false, queue := [plainChild cfgRun jobW],
    visited := ["w"], results := [{ URL := "w", StatusCode := 200, Length := 2 }],
    dispatched := [jobW], panicked := false }

/-- After a worker additionally processed the plain recursion child:
discarded by the visited check. -/
def stAfterPlain : SysState :=
  { seedsLeft := [], closed := false, queue := [],
    visited := ["w"], results := [{ URL := "w", StatusCode := 200, Length := 2 }],
    dispatched := [jobW], panicked := false }

/-- After a worker processed `jobW` when the channel was already
closed: the recursive `jobs <- newJob` panics. -/
def stPanic : SysState :=
  { seedsLeft := [], closed := true, queue := [],
    visited := ["w"], results := [{ URL := "w", StatusCode := 200, Length := 2 }],
    dispatched := [jobW], panicked := true }

theorem step_seed_run :
    SStep cfgRun oracleRun (initSys (seedJobs cfgRun ["w"])) .seed stSeeded := by
  have e : ({ initSys (seedJobs cfgRun ["w"]) with
      seedsLeft := ([] : List Job),
      queue := (initSys (seedJobs cfgRun ["w"])).queue ++ [jobW] } : SysState) = stSeeded := by
    decide
  exact e ▸ SStep.seed (initSys (seedJobs cfgRun ["w"])) jobW [] (by decide) rfl

theorem step_close_run : SStep cfgRun oracleRun stSeeded .closeJobs stClosed := by
  have e : ({ stSeeded with closed := true } : SysState) = stClosed := by decide
  exact e ▸ SStep.closeJobs stSeeded rfl rfl

theorem step_work_run : SStep cfgRun oracleRun stSeeded (.work jobW) stWorked := by
  have e : workResult cfgRun oracleRun stSeeded ([] ++ []) jobW = stWorked := by decide
  exact e ▸ SStep.work stSeeded [] [] jobW rfl

theorem step_work_closed_run : SStep cfgRun oracleRun stClosed (.work jobW) stPanic := by
  have e : workResult cfgRun oracleRun stClosed ([] ++ []) jobW = stPanic := by decide
  exact e ▸ SStep.work stClosed [] [] jobW rfl

theorem step_work_plain_run :
    SStep cfgRun oracleRun stWorked (.work (plainChild cfgRun jobW)) stAfterPlain := by
  have e : workResult cfgRun oracleRun stWorked ([] ++ []) (plainChild cfgRun jobW)
      = stAfterPlain := by decide
  exact e ▸ SStep.work stWorked [] [] (plainChild cfgRun jobW) (by decide)

/-! ## Claims -/

/-- Configuration of the C1 counterexample: `-u http://x/FUZZ -e .php
-rec -depth 1`. -/
def cfgC1 : Config :=
  { URLTemplate := "http://x/FUZZ", Extensions := [".php"],
    Recursive := true, MaxDepth := 1 }

/-- An accepted depth-0 job of the C1 counterexample run. -/
def jobC1 : Job := { URL := "http://x/a", PostData := "", Depth := 0 }

/-- C1 (counterexample): the recursive extension child's target is NOT
`filteredResultURL + extension`.  For template `http://x/FUZZ` and
accepted URL `http://x/a`, the child URL is
`http://x/http://x/a.php` (the template with the placeholder replaced
by URL-plus-extension), not `http://x/a.php`. -/
theorem c1_target_counterexample :
    (expandJobs cfgC1 jobC1).map Job.URL ≠ [jobC1.URL ++ ".php", jobC1.URL] := by
  decide

/-- C1 (amended): for every accepted job with recursion enabled and
`job.Depth < cfg.MaxDepth`, the worker enqueues one recursive job per
configured extension whose target is the URL template with the
placeholder replaced by the accepted URL plus the extension
(`replacePlaceholder cfg.URLTemplate (job.URL ++ ext)`), plus one
plain recursive job whose target is the accepted URL itself, all with
depth `job.Depth + 1`. -/
theorem c1_expansion_amended (cfg : Config) (job : Job)
    (hrec : cfg.Recursive = true) (hdep : job.Depth < cfg.MaxDepth) :
    (expandJobs cfg job).map Job.URL =
      (cfg.Extensions.map fun ext => replacePlaceholder cfg.URLTemplate (job.URL ++ ext))
        ++ [job.URL] ∧
    (expandJobs cfg job).length = cfg.Extensions.length + 1 ∧
    ((expandJobs cfg job).all fun j => decide (j.Depth = job.Depth + 1)) = true := by
  rw [expandJobs_pos cfg job hrec hdep]
  refine ⟨?_, ?_, ?_⟩
  · simp [plainChild]
  · simp
  · rw [List.all_eq_true]
    intro j hj
    rw [decide_eq_true_eq]
    rcases List.mem_append.mp hj with hmap | hsing
    · rcases List.mem_map.mp hmap with ⟨ext, _, rfl⟩
      rfl
    · rcases List.mem_singleton.mp hsing with rfl
      rfl

/-- Witness for the amended C1 at the counterexample's configuration. -/
theorem c1_expansion_amended_witness :
    (expandJobs cfgC1 jobC1).map Job.URL =
      (cfgC1.Extensions.map fun ext => replacePlaceholder cfgC1.URLTemplate (jobC1.URL ++ ext))
        ++ [jobC1.URL] ∧
    (expandJobs cfgC1 jobC1).length = cfgC1.Extensions.length + 1 ∧
    ((expandJobs cfgC1 jobC1).all fun j => decide (j.Depth = jobC1.Depth + 1)) = true :=
  c1_expansion_amended cfgC1 jobC1 rfl (by decide)

/-- C2: the code does NOT count outstanding work.  `main` executes
`close(jobs)` immediately after the seeding loop while a fixed
worker-count wait-group runs; a worker that accepts a result
afterwards executes `jobs <- newJob` on the closed channel, which
panics.  This run — seed `w`, `close(jobs)`, then the worker processes
the job and tries to enqueue its recursion children — reaches the
panicked state, refuting "the queue is never closed while a worker can
still enqueue into it". -/
theorem c2_close_then_enqueue_panics :
    SReach cfgRun oracleRun (initSys (seedJobs cfgRun ["w"])) stPanic ∧
    stPanic.panicked = true := by
  constructor
  · exact Relation.ReflTransGen.head ⟨.seed, step_seed_run⟩
      (Relation.ReflTransGen.head ⟨.closeJobs, step_close_run⟩
        (Relation.ReflTransGen.single ⟨.work jobW, step_work_closed_run⟩))
  · rfl

/-- C4: a job all of whose attempts fail with a transport error makes
exactly `cfg.Retries + 1` request attempts, and the worker's outcome
for it is exactly one error `Result` (carrying the last failure). -/
theorem c4_retries_exhausted (cfg : Config) (oracle : Nat → AttemptOutcome)
    (visited : List String) (job : Job) (msgs : Nat → String)
    (hgate : cfg.Recursive = false ∨ visited.contains job.URL = false)
    (hfail : ∀ i, i ≤ cfg.Retries → oracle i = .transportError (msgs i)) :
    (executeRequest cfg oracle).doCalls = cfg.Retries + 1 ∧
    (processJob cfg oracle visited job).2 =
      .errorResult { URL := job.URL, Error := msgs cfg.Retries } := by
  have hexec := executeRequest_all_fail cfg oracle msgs hfail
  constructor
  · rw [hexec]
  · rw [processJob_fail cfg oracle visited job (msgs cfg.Retries) hgate (by rw [hexec])]

/-- Retry-only configuration used by the C4/C6/C7 witnesses. -/
def cfgFail : Config := { Retries := 2 }

/-- A network in which every attempt is refused. -/
def oracleFail : Nat → AttemptOutcome := fun _ => .transportError "connection refused"

/-- Witness for C4: with 2 retries, 3 `client.Do` calls and one error
`Result`. -/
theorem c4_retries_exhausted_witness :
    (executeRequest cfgFail oracleFail).doCalls = cfgFail.Retries + 1 ∧
    (processJob cfgFail oracleFail [] jobW).2 =
      .errorResult { URL := jobW.URL, Error := "connection refused" } :=
  c4_retries_exhausted cfgFail oracleFail [] jobW (fun _ => "connection refused")
    (Or.inl rfl) (fun _ _ => rfl)

/-- C6: whenever attempt `j` receives an HTTP response — whatever the
status code, 4xx and 5xx included — the retry loop returns it at once:
the result is that response and exactly `j + 1` iterations ran, so no
further retry is performed.  Only transport-level failures (the
earlier attempts) trigger retry. -/
theorem c6_response_returned_immediately (cfg : Config)
    (oracle : Nat → AttemptOutcome) (j : Nat) (status : Int) (body : String)
    (hj : j ≤ cfg.Retries)
    (hresp : oracle j = .response status body)
    (hbefore : ∀ i, i < j → ∀ st b, oracle i ≠ .response st b) :
    (executeRequest cfg oracle).result = .ok (status, body) ∧
    (executeRequest cfg oracle).iterations = j + 1 :=
  executeRequest_response cfg oracle j status body hj hresp hbefore

/-- A network refusing attempt 0 and answering 500 from attempt 1 on. -/
def oracleHalfFail : Nat → AttemptOutcome := fun i =>
  if i = 0 then .transportError "connection refused" else .response 500 "server error"

/-- Witness for C6: the 500 response at attempt 1 is returned as a
success and the loop stops after iteration 2 of a possible 3. -/
theorem c6_response_returned_immediately_witness :
    (executeRequest cfgFail oracleHalfFail).result = .ok (500, "server error") ∧
    (executeRequest cfgFail oracleHalfFail).iterations = 1 + 1 :=
  c6_response_returned_immediately cfgFail oracleHalfFail 1 500 "server error"
    (by decide) rfl
    (fun i hi st b => by
      interval_cases i
      simp [oracleHalfFail])

/-- C7: a job whose retries are exhausted by transport errors is never
passed through the filters — whatever the configured filters are, the
worker appends exactly one `Result` carrying the job's URL and the
error text, with zero status code and zero length, enqueues nothing,
and leaves the rest of the queue for the next iterations of the worker
loop. -/
theorem c7_error_result_emitted (cfg : Config)
    (oracleOf : Job → Nat → AttemptOutcome) (s : SysState) (rest : List Job)
    (job : Job) (msgs : Nat → String)
    (hgate : cfg.Recursive = false ∨ s.visited.contains job.URL = false)
    (hfail : ∀ i, i ≤ cfg.Retries → oracleOf job i = .transportError (msgs i)) :
    workResult cfg oracleOf s rest job =
      { s with queue := rest,
               visited := if cfg.Recursive then job.URL :: s.visited else s.visited,
               results := s.results ++
                 [{ URL := job.URL, StatusCode := 0, Length := 0,
                    Error := msgs cfg.Retries }],
               dispatched := s.dispatched ++ [job] } := by
  have hexec := executeRequest_all_fail cfg (oracleOf job) msgs hfail
  have hpj := processJob_fail cfg (oracleOf job) s.visited job (msgs cfg.Retries)
    hgate (by rw [hexec])
  unfold workResult
  rw [hpj]

/-- All-transport-failure network indexed per job, for the C7
witness. -/
def oracleFailOf : Job → Nat → AttemptOutcome := fun _ _ => .transportError "connection refused"

/-- The pristine state of a run with no seeds. -/
def stEmpty : SysState := initSys []

/-- Witness for C7 in a rejecting configuration (it would filter out
every response — the error `Result` is emitted regardless). -/
theorem c7_error_result_emitted_witness :
    workResult cfgFail oracleFailOf stEmpty [] jobW =
      { stEmpty with queue := [],
                     visited := if cfgFail.Recursive then jobW.URL :: stEmpty.visited
                                else stEmpty.visited,
                     results := stEmpty.results ++
                       [{ URL := jobW.URL, StatusCode := 0, Length := 0,
                          Error := "connection refused" }],
                     dispatched := stEmpty.dispatched ++ [jobW] } :=
  c7_error_result_emitted cfgFail oracleFailOf stEmpty [] jobW
    (fun _ => "connection refused") (Or.inl rfl) (fun _ _ => rfl)

/-- C8: with `N` non-empty wordlist lines and `E` extensions and
recursion off, exactly `N * (1 + E)` seed jobs are generated, all at
depth 0; blank lines contribute nothing. -/
theorem c8_seed_job_count (cfg : Config) (lines : List String)
    (hrec : cfg.Recursive = false) :
    (seedJobs cfg lines).length =
      (lines.countP fun w => decide (w ≠ "")) * (1 + cfg.Extensions.length) ∧
    ((seedJobs cfg lines).all fun j => decide (j.Depth = 0)) = true := by
  refine ⟨seedJobs_length cfg lines, ?_⟩
  rw [List.all_eq_true]
  intro j hj
  rw [decide_eq_true_eq]
  exact seedJobs_depth cfg lines j hj

/-- Configuration of the C8 witness: one extension, recursion off. -/
def cfgC8 : Config := { URLTemplate := "http://x/FUZZ", Extensions := [".php"] }

/-- Witness for C8: wordlist `admin`, blank, `login` with one
extension gives `2 * (1 + 1) = 4` seed jobs of depth 0. -/
theorem c8_seed_job_count_witness :
    (seedJobs cfgC8 ["admin", "", "login"]).length =
      ((["admin", "", "login"] : List String).countP fun w => decide (w ≠ ""))
        * (1 + cfgC8.Extensions.length) ∧
    ((seedJobs cfgC8 ["admin", "", "login"]).all fun j => decide (j.Depth = 0)) = true :=
  c8_seed_job_count cfgC8 ["admin", "", "login"] rfl

/-- C3: in every run with recursion enabled, each target URL is
dispatched (reaches the retry loop) at most once, however many queued
jobs carry it: the dispatched list of every reachable state has no
duplicate URL.  The proof rests on the `LoadOrStore` test-and-set
reporting a fresh store at most once per key. -/
theorem c3_dispatch_at_most_once (cfg : Config)
    (oracleOf : Job → Nat → AttemptOutcome) (lines : List String) (s : SysState)
    (hrec : cfg.Recursive = true)
    (h : SReach cfg oracleOf (initSys (seedJobs cfg lines)) s) :
    (s.dispatched.map Job.URL).Nodup := by
  have hinit : DispOk (initSys (seedJobs cfg lines)) := by
    constructor
    · simp [initSys]
    · intro j hj
      simp [initSys] at hj
  exact (sreach_dispOk cfg oracleOf _ s hrec h hinit).1

/-- Witness for C3 after one seed step and one worker step. -/
theorem c3_dispatch_at_most_once_witness :
    (stWorked.dispatched.map Job.URL).Nodup :=
  c3_dispatch_at_most_once cfgRun oracleRun ["w"] stWorked rfl
    (Relation.ReflTransGen.head ⟨.seed, step_seed_run⟩
      (Relation.ReflTransGen.single ⟨.work jobW, step_work_run⟩))

/-- C9: in every run with recursion enabled, every job in the queue
and every dispatched job of every reachable state satisfies
`Depth ≤ cfg.MaxDepth`: seeds start at depth 0 and the recursive block
fires only below the bound, producing children at `Depth + 1`. -/
theorem c9_depth_bound (cfg : Config)
    (oracleOf : Job → Nat → AttemptOutcome) (lines : List String) (s : SysState)
    (hrec : cfg.Recursive = true)
    (h : SReach cfg oracleOf (initSys (seedJobs cfg lines)) s) :
    ((s.queue ++ s.dispatched).all fun j => decide (j.Depth ≤ cfg.MaxDepth)) = true := by
  have hinit : DepthOk cfg (initSys (seedJobs cfg lines)) := by
    refine ⟨?_, ?_, ?_⟩
    · intro j hj
      have h0 : j.Depth = 0 := seedJobs_depth cfg lines j hj
      rw [h0]
      exact Nat.zero_le _
    · intro j hj
      simp [initSys] at hj
    · intro j hj
      simp [initSys] at hj
  have hok := sreach_depthOk cfg oracleOf _ s h hinit
  rw [List.all_eq_true]
  intro j hj
  rw [decide_eq_true_eq]
  rcases List.mem_append.mp hj with hj | hj
  · exact hok.2.1 j hj
  · exact hok.2.2 j hj

/-- Witness for C9 after one seed step and one worker step: the queued
depth-1 child and the dispatched depth-0 seed respect the bound 2. -/
theorem c9_depth_bound_witness :
    ((stWorked.queue ++ stWorked.dispatched).all
      fun j => decide (j.Depth ≤ cfgRun.MaxDepth)) = true :=
  c9_depth_bound cfgRun oracleRun ["w"] stWorked rfl
    (Relation.ReflTransGen.head ⟨.seed, step_seed_run⟩
      (Relation.ReflTransGen.single ⟨.work jobW, step_work_run⟩))

/-- C10: with recursion enabled, the plain recursion child built from
a processed job `j` — last element of the expansion, same URL, depth
`j.Depth + 1` — is discarded by the visited check whenever a worker
later takes it: the parent's URL was stored by `LoadOrStore` when the
parent was processed and the visited set only grows, so the child
produces no request, no `Result`, and no further expansion; only the
queue shrinks by the child itself. -/
theorem c10_plain_child_discarded (cfg : Config)
    (oracleOf : Job → Nat → AttemptOutcome) (s1 s2 s3 s4 : SysState) (j : Job)
    (hrec : cfg.Recursive = true)
    (hdep : j.Depth < cfg.MaxDepth)
    (h1 : SStep cfg oracleOf s1 (.work j) s2)
    (h2 : SReach cfg oracleOf s2 s3)
    (h3 : SStep cfg oracleOf s3 (.work (plainChild cfg j)) s4) :
    (expandJobs cfg j).getLast? = some (plainChild cfg j) ∧
    (plainChild cfg j).URL = j.URL ∧
    s4.results = s3.results ∧
    s4.dispatched = s3.dispatched ∧
    s4.visited = s3.visited ∧
    s4.queue.length + 1 = s3.queue.length := by
  have hlast : (expandJobs cfg j).getLast? = some (plainChild cfg j) := by
    rw [expandJobs_pos cfg j hrec hdep]
    exact List.getLast?_concat _
  have hmark2 : j.URL ∈ s2.visited := by
    cases h1 with
    | work pre post hq =>
      rw [workResult_visited]
      exact processJob_marks cfg (oracleOf j) s1.visited j hrec
  have hmark3 : j.URL ∈ s3.visited :=
    sreach_visited_mono cfg oracleOf s2 s3 h2 j.URL hmark2
  cases h3 with
  | work pre post jc hq =>
    have hskip : workResult cfg oracleOf s3 (pre ++ post) (plainChild cfg j) =
        { s3 with queue := pre ++ post } :=
      workResult_skip cfg oracleOf s3 (pre ++ post) (plainChild cfg j) hrec hmark3
    rw [hskip]
    refine ⟨hlast, rfl, rfl, rfl, rfl, ?_⟩
    rw [hq]
    simp [List.length_append]
    omega

/-- Witness for C10: in the concrete run, the plain child of `jobW` is
dropped by the visited check — same results, dispatches and visited
set, one job fewer in the queue. -/
theorem c10_plain_child_discarded_witness :
    (expandJobs cfgRun jobW).getLast? = some (plainChild cfgRun jobW) ∧
    (plainChild cfgRun jobW).URL = jobW.URL ∧
    stAfterPlain.results = stWorked.results ∧
    stAfterPlain.dispatched = stWorked.dispatched ∧
    stAfterPlain.visited = stWorked.visited ∧
    stAfterPlain.queue.length + 1 = stWorked.queue.length :=
  c10_plain_child_discarded cfgRun oracleRun stSeeded stWorked stWorked stAfterPlain
    jobW rfl (by decide) step_work_run Relation.ReflTransGen.refl step_work_plain_run

/-- `containsInt` agrees with list membership. -/
theorem containsInt_iff (l : List Int) (v : Int) : containsInt l v = true ↔ v ∈ l := by
  induction l with
  | nil => simp [containsInt]
  | cons a rest ih =>
    by_cases h : a = v
    · simp [containsInt, h]
    · simp only [containsInt, if_neg h, ih, List.mem_cons]
      constructor
      · exact Or.inr
      · rintro (rfl | hm)
        · exact absurd rfl h
        · exact hm

/-- C5: the acceptance predicate is the conjunction of the four
configured filters, and every absent filter (empty status list, zero
length bound, absent regex) passes by default — it never rejects. -/
theorem c5_accept_iff (cfg : Config) (status : Int) (body : String) :
    accept cfg status body = true ↔
      (cfg.StatusFilter = [] ∨ status ∈ cfg.StatusFilter) ∧
      (cfg.MinLength = 0 ∨ cfg.MinLength ≤ body.length) ∧
      (cfg.MaxLength = 0 ∨ body.length ≤ cfg.MaxLength) ∧
      (∀ re, cfg.RegexFilter = some re → re body = true) := by
  constructor
  · intro h
    unfold accept at h
    split at h
    · exact absurd h (by simp)
    · rename_i h1
      split at h
      · exact absurd h (by simp)
      · rename_i h2
        simp only [Bool.and_eq_true, Bool.not_eq_true', Bool.not_eq_true,
          decide_eq_true_eq, not_and] at h1
        simp only [Bool.or_eq_true, Bool.and_eq_true, decide_eq_true_eq,
          not_or, not_and] at h2
        refine ⟨?_, ?_, ?_, ?_⟩
        · by_cases hsf : cfg.StatusFilter = []
          · exact Or.inl hsf
          · right
            have hlen : 0 < cfg.StatusFilter.length := List.length_pos.mpr hsf
            by_cases hct : containsInt cfg.StatusFilter status = true
            · exact (containsInt_iff _ _).mp hct
            · exact absurd (h1 hlen) (by simpa using hct)
        · rcases Nat.eq_zero_or_pos cfg.MinLength with hz | hp
          · exact Or.inl hz
          · exact Or.inr (by have := h2.1 hp; omega)
        · rcases Nat.eq_zero_or_pos cfg.MaxLength with hz | hp
          · exact Or.inl hz
          · exact Or.inr (by have := h2.2 hp; omega)
        · intro re hre
          rw [hre] at h
          by_cases hm : re body = true
          · exact hm
          · rw [Bool.not_eq_true] at hm
            simp [hm] at h
  · rintro ⟨hst, hmin, hmax, hre⟩
    unfold accept
    have hc1 : (0 < cfg.StatusFilter.length && !containsInt cfg.StatusFilter status)
        = false := by
      cases hst with
      | inl h => simp [h]
      | inr h => simp [(containsInt_iff _ _).mpr h]
    have hc2 : ((decide (0 < cfg.MinLength) && decide (body.length < cfg.MinLength))
        || (decide (0 < cfg.MaxLength) && decide (cfg.MaxLength < body.length)))
        = false := by
      rcases hmin with h | h <;> rcases hmax with h2 | h2 <;> simp [h, h2]
    rw [if_neg (by simp [hc1]), if_neg (by simp [hc2])]
    cases hrx : cfg.RegexFilter with
    | none => rfl
    | some re =>
      have := hre re hrx
      simp [this]

end GoFuzz
